import Mathlib

/-!
# Verification of the name-matching engine (`src/utils/name_matcher.py`)

This file gives a shallow embedding of the `NameMatcher` class: the
normalizer (`normalize`), the three sub-scorers (`ngram_similarity`,
`prefix_match_score`, `edit_distance_score`), the composite scorer
(`calculate_similarity`) and the ranking function (`find_candidates`),
and proves the spec's claims about them.

Modelling conventions:
* Python strings are `List Char` (`Text`); scores (Python floats whose
  arithmetic here is exact: divisions of small integers and weighted sums)
  are `ℚ`.
* The Unicode library calls (`unicodedata.normalize('NFKC', ·)`,
  `jaconv.z2h`, `jaconv.kata2hira`, `str.lower`) are embedded as
  character-wise tables restricted to the character ranges the matcher's
  patterns and data exercise: full-width ASCII forms, the ideographic
  space, the parenthesized-ideograph company signs ㈱/㈲, the katakana
  block and ASCII letter case.  Outside these ranges the maps are the
  identity, as NFKC and the jaconv conversions are on the characters that
  actually occur in the patterns and examples; canonical composition of
  combining sequences is not modelled, and every concrete input a theorem
  evaluates stays within the modelled ranges.
* The regex substitutions `re.sub(pattern, '', text)` are embedded as
  `subAll`: scan left to right, at each position try the pattern (matching
  greedily, as each of the patterns at hand is matched by Python's regex
  engine), remove the leftmost match and continue after it.  The pattern
  list `LEGAL_PATTERNS` is applied in order, on the already lower-cased
  text, so each pattern is embedded by its lower-case literal form.
* `Levenshtein.distance` is Mathlib's `levenshtein` with the unit cost
  structure.
-/

namespace NM

abbrev Text := List Char

/-- The whitespace class `\s` of the regexes and Python's `str.strip`,
restricted to the common whitespace characters (ASCII whitespace, NBSP,
ideographic space). -/
def isWs (c : Char) : Bool :=
  c.toNat == 0x20 || c.toNat == 0x9 || c.toNat == 0xA || c.toNat == 0xD ||
  c.toNat == 0xB || c.toNat == 0xC || c.toNat == 0xA0 || c.toNat == 0x3000

/-- The character class `REMOVE_SYMBOLS = r'[×・／\-\s\.\,\(\)（）]'`:
multiplication sign, katakana middle dot, full-width solidus, hyphen,
whitespace, period, comma, half- and full-width parentheses. -/
def isRemoveSymbol (c : Char) : Bool :=
  c.toNat == 0xD7 || c.toNat == 0x30FB || c.toNat == 0xFF0F || c.toNat == 0x2D ||
  isWs c || c.toNat == 0x2E || c.toNat == 0x2C || c.toNat == 0x28 ||
  c.toNat == 0x29 || c.toNat == 0xFF08 || c.toNat == 0xFF09

/-- `unicodedata.normalize('NFKC', ·)`, character-wise, on the modelled
ranges: full-width forms U+FF01–U+FF5E fold to ASCII, the ideographic
space folds to a space, ㈱ and ㈲ decompose to `(株)` and `(有)`;
identity elsewhere.  Being character-wise, this table carries only the
compatibility folds of those ranges; NFKC's canonical composition of
combining sequences (and folds of other compatibility characters) is not
modelled, so nothing is proved about `normalize` that would rely on the
identity branch — the universally quantified theorems below treat
`normalize` as opaque, and the concrete inputs evaluated in theorems
stay within the modelled ranges. -/
def nfkcChar (c : Char) : Text :=
  if 0xFF01 ≤ c.toNat ∧ c.toNat ≤ 0xFF5E then [Char.ofNat (c.toNat - 0xFEE0)]
  else if c.toNat = 0x3000 then [' ']
  else if c.toNat = 0x3231 then ['(', '株', ')']
  else if c.toNat = 0x3232 then ['(', '有', ')']
  else [c]

def nfkcStr : Text → Text
  | [] => []
  | c :: s => nfkcChar c ++ nfkcStr s

/-- `jaconv.z2h(·, kana=False, digit=True, ascii=True)`: full-width digits
and Latin letters to their half-width forms; identity elsewhere.  (After
NFKC this step is the identity, since NFKC already folded the full-width
forms; it is kept to mirror the source pipeline.) -/
def z2hChar (c : Char) : Char :=
  if (0xFF10 ≤ c.toNat ∧ c.toNat ≤ 0xFF19) ∨ (0xFF21 ≤ c.toNat ∧ c.toNat ≤ 0xFF3A) ∨
      (0xFF41 ≤ c.toNat ∧ c.toNat ≤ 0xFF5A) then
    Char.ofNat (c.toNat - 0xFEE0)
  else c

def z2hStr (s : Text) : Text := s.map z2hChar

/-- `jaconv.kata2hira`: the katakana block ァ(U+30A1)–ヶ(U+30F6) shifts down
by 0x60 to the hiragana block ぁ(U+3041)–ゖ(U+3096); identity elsewhere. -/
def kataChar (c : Char) : Char :=
  if 0x30A1 ≤ c.toNat ∧ c.toNat ≤ 0x30F6 then Char.ofNat (c.toNat - 0x60) else c

def kataStr (s : Text) : Text := s.map kataChar

/-- `str.lower`, on the modelled ASCII range: A–Z to a–z, identity
elsewhere. -/
def lowerChar (c : Char) : Char :=
  if 0x41 ≤ c.toNat ∧ c.toNat ≤ 0x5A then Char.ofNat (c.toNat + 0x20) else c

def lowerStr (s : Text) : Text := s.map lowerChar

/-- Match a literal pattern at the head of `s`, returning the matched
length. -/
def litAt (pat : Text) (s : Text) : Option Nat :=
  if pat.isPrefixOf s then some pat.length else none

/-- How many characters (0 or 1) an optional single character `c?` matches
at the head of `s`. -/
def optCharLen (c : Char) : Text → Nat
  | d :: _ => if d = c then 1 else 0
  | [] => 0

/-- The pattern `Co\.,?\s*Ltd\.?` (on lower-cased text): `co.` then an
optional comma, a greedy whitespace run, `ltd` and an optional period. -/
def coLtdAt (s : Text) : Option Nat :=
  if "co.".data.isPrefixOf s then
    let r1 := s.drop 3
    let k1 := optCharLen ',' r1
    let r2 := r1.drop k1
    let k2 := (r2.takeWhile isWs).length
    let r3 := r2.drop k2
    if "ltd".data.isPrefixOf r3 then some (3 + k1 + k2 + 3 + optCharLen '.' (r3.drop 3))
    else none
  else none

/-- The pattern `Holdings?` (on lower-cased text). -/
def holdingsAt (s : Text) : Option Nat :=
  if "holding".data.isPrefixOf s then some (7 + optCharLen 's' (s.drop 7)) else none

/-- A literal pattern followed by an optional period (`Corp\.?`, `Inc\.?`,
`Ltd\.?`). -/
def litOptDotAt (pat : Text) (s : Text) : Option Nat :=
  if pat.isPrefixOf s then some (pat.length + optCharLen '.' (s.drop pat.length))
  else none

/-- `LEGAL_PATTERNS`, in source order, each embedded as a matcher giving
the length matched at the head of the text (the text is already
lower-cased when the patterns run, so `re.IGNORECASE` amounts to matching
the lower-case literals). -/
def LEGAL_MATCHERS : List (Text → Option Nat) :=
  [ litAt "株式会社".data, litAt "(株)".data, litAt "㈱".data,
    litAt "有限会社".data, litAt "(有)".data, litAt "㈲".data,
    litAt "合名会社".data, litAt "合資会社".data, litAt "合同会社".data,
    litAt "llc".data, coLtdAt, holdingsAt, litAt "hd".data,
    litAt "corporation".data, litOptDotAt "corp".data, litOptDotAt "inc".data,
    litAt "limited".data, litOptDotAt "ltd".data ]

/-- `re.sub(pattern, '', ·)` driven by a fuel counter (the fuel is the
length of the text, which bounds the number of scan steps): at each
position try the matcher; on a match of length `k+1` drop it and continue
after it, otherwise keep the character and move on. -/
def subAllFuel (m : Text → Option Nat) : Nat → Text → Text
  | 0, s => s
  | _ + 1, [] => []
  | fuel + 1, c :: rest =>
    match m (c :: rest) with
    | some (k + 1) => subAllFuel m fuel (rest.drop k)
    | _ => c :: subAllFuel m fuel rest

def subAll (m : Text → Option Nat) (s : Text) : Text := subAllFuel m s.length s

/-- The legal-form removal loop: one `re.sub` per pattern, in order. -/
def removeLegalPatterns (s : Text) : Text :=
  LEGAL_MATCHERS.foldl (fun t m => subAll m t) s

/-- `re.sub(REMOVE_SYMBOLS, '', ·)`: a character class, so the
substitution is a filter. -/
def removeSymbols (s : Text) : Text := s.filter (fun c => !(isRemoveSymbol c))

/-- `str.lstrip('×')`. -/
def lstripX (s : Text) : Text := s.dropWhile (fun c => c.toNat == 0xD7)

/-- `str.strip()`. -/
def stripWs (s : Text) : Text := ((s.dropWhile isWs).reverse.dropWhile isWs).reverse

/-- The normalization pipeline applied to non-empty input: NFKC,
full-width to half-width, katakana to hiragana, lower-casing, legal-form
removal, symbol removal, leading-× strip, whitespace strip. -/
def normalizeCore (s : Text) : Text :=
  stripWs (lstripX (removeSymbols (removeLegalPatterns
    (lowerStr (kataStr (z2hStr (nfkcStr s)))))))

/-- `NameMatcher.normalize` on a string input: empty input short-circuits
to `""`; the pair is (normalized text, original text). -/
def normalize (text : Text) : Text × Text :=
  if text = [] then ([], text) else (normalizeCore text, text)

/-- `NameMatcher.normalize` on a possibly missing input: `none` models
`None`/`NaN` (caught by `not text or pd.isna(text)`). -/
def normalizeOpt : Option Text → Text × Option Text
  | none => ([], none)
  | some t => ((normalize t).1, some t)

/-- `create_ngrams` inside `ngram_similarity`: the set of contiguous
length-`n` substrings, or the singleton of the whole string when it is
shorter than `n`. -/
def create_ngrams (t : Text) (n : Nat) : Finset Text :=
  if t.length < n then {t}
  else ((List.range (t.length - n + 1)).map (fun i => (t.drop i).take n)).toFinset

/-- `NameMatcher.ngram_similarity` (the source's default for `n` is 2). -/
def ngram_similarity (t1 t2 : Text) (n : Nat) : ℚ :=
  if t1 = [] ∨ t2 = [] then 0
  else
    let g1 := create_ngrams t1 n
    let g2 := create_ngrams t2 n
    let inter := (g1 ∩ g2).card
    let union := (g1 ∪ g2).card
    if union = 0 then 0 else (inter : ℚ) / (union : ℚ)

/-- The `zip`/`break` loop of `prefix_match_score`: the length of the
common leading run. -/
def matchCount : Text → Text → Nat
  | c1 :: t1, c2 :: t2 => if c1 = c2 then matchCount t1 t2 + 1 else 0
  | _, _ => 0

/-- `NameMatcher.prefix_match_score`. -/
def prefix_match_score (t1 t2 : Text) : ℚ :=
  if t1 = [] ∨ t2 = [] then 0
  else
    let min_len := min t1.length t2.length
    if min_len = 0 then 0
    else (matchCount t1 t2 : ℚ) / (min_len : ℚ)

/-- `Levenshtein.distance`: the unit-cost edit distance. -/
def levDist (t1 t2 : Text) : Nat := levenshtein Levenshtein.defaultCost t1 t2

/-- `NameMatcher.edit_distance_score`. -/
def edit_distance_score (t1 t2 : Text) : ℚ :=
  if t1 = [] ∨ t2 = [] then 0
  else
    let max_len := max t1.length t2.length
    if max_len = 0 then 1
    else 1 - (levDist t1 t2 : ℚ) / (max_len : ℚ)

/-- The constructor arguments of `NameMatcher`. -/
structure NameMatcher where
  ngram_weight : ℚ
  prefix_weight : ℚ
  edit_weight : ℚ
  deriving DecidableEq

/-- The source's default weights 0.5 / 0.3 / 0.2. -/
def defaultMatcher : NameMatcher := ⟨1/2, 3/10, 1/5⟩

/-- The dict returned by `calculate_similarity`. -/
structure SimilarityResult where
  score : ℚ
  ngram_score : ℚ
  prefix_score : ℚ
  edit_score : ℚ
  normalized1 : Text
  normalized2 : Text
  deriving DecidableEq

/-- `NameMatcher.calculate_similarity`: normalize both inputs,
short-circuit to all-1.0 scores on equal normal forms, otherwise take the
weighted sum of the three sub-scores. -/
def calculate_similarity (m : NameMatcher) (text1 text2 : Text) : SimilarityResult :=
  let norm1 := (normalize text1).1
  let norm2 := (normalize text2).1
  if norm1 = norm2 then ⟨1, 1, 1, 1, norm1, norm2⟩
  else
    let ngram_score := ngram_similarity norm1 norm2 2
    let prefix_score := prefix_match_score norm1 norm2
    let edit_score := edit_distance_score norm1 norm2
    ⟨m.ngram_weight * ngram_score + m.prefix_weight * prefix_score +
      m.edit_weight * edit_score,
      ngram_score, prefix_score, edit_score, norm1, norm2⟩

/-- The dicts appended by the loop in `find_candidates`. -/
structure CandidateResult where
  candidate : Text
  score : ℚ
  details : SimilarityResult
  deriving DecidableEq

/-- The filtering loop of `find_candidates`: score every candidate, keep
those with `score >= threshold`, in candidate order. -/
def scored_results (m : NameMatcher) (target : Text) (candidates : List Text)
    (threshold : ℚ) : List CandidateResult :=
  candidates.filterMap (fun c =>
    let s := calculate_similarity m target c
    if threshold ≤ s.score then some ⟨c, s.score, s⟩ else none)

/-- Insert into a descending-sorted list, after entries with strictly
larger score and before entries with equal or smaller score. -/
def insertDesc (x : CandidateResult) : List CandidateResult → List CandidateResult
  | [] => [x]
  | y :: ys => if x.score < y.score then y :: insertDesc x ys else x :: y :: ys

/-- A stable descending sort by score.  Python's `list.sort(key=...,
reverse=True)` is a stable sort, and a stable descending sort's output is
determined by its specification, so any stable implementation embeds it. -/
def sortDesc : List CandidateResult → List CandidateResult
  | [] => []
  | x :: xs => insertDesc x (sortDesc xs)

/-- `NameMatcher.find_candidates` (the source defaults are `top_n=3`,
`threshold=0.0`): filter by threshold, sort by descending score, truncate
to `top_n`. -/
def find_candidates (m : NameMatcher) (target : Text) (candidates : List Text)
    (top_n : Nat) (threshold : ℚ) : List CandidateResult :=
  (sortDesc (scored_results m target candidates threshold)).take top_n



/-! ## Helper lemmas -/

theorem matchCount_eq_zip_takeWhile (t1 t2 : Text) :
    matchCount t1 t2 = ((t1.zip t2).takeWhile (fun p => p.1 == p.2)).length := by
  induction t1 generalizing t2 with
  | nil => cases t2 <;> simp [matchCount]
  | cons c1 t1 ih =>
    cases t2 with
    | nil => simp [matchCount]
    | cons c2 t2 =>
      by_cases h : c1 = c2
      · simp [matchCount, h, ih]
      · simp [matchCount, h]


theorem ngram_similarity_eq (t1 t2 : Text) (n : Nat) (h : ¬(t1 = [] ∨ t2 = [])) :
    ngram_similarity t1 t2 n =
      if (create_ngrams t1 n ∪ create_ngrams t2 n).card = 0 then 0
      else ((create_ngrams t1 n ∩ create_ngrams t2 n).card : ℚ) /
        ((create_ngrams t1 n ∪ create_ngrams t2 n).card : ℚ) := by
  rw [ngram_similarity, if_neg h]

theorem prefix_match_score_eq (t1 t2 : Text) (h : ¬(t1 = [] ∨ t2 = [])) :
    prefix_match_score t1 t2 =
      if min t1.length t2.length = 0 then 0
      else (matchCount t1 t2 : ℚ) / ((min t1.length t2.length : Nat) : ℚ) := by
  rw [prefix_match_score, if_neg h]

theorem edit_distance_score_eq (t1 t2 : Text) (h : ¬(t1 = [] ∨ t2 = [])) :
    edit_distance_score t1 t2 =
      if max t1.length t2.length = 0 then 1
      else 1 - (levDist t1 t2 : ℚ) / ((max t1.length t2.length : Nat) : ℚ) := by
  rw [edit_distance_score, if_neg h]

theorem calculate_similarity_of_norm_eq (m : NameMatcher) (a b : Text)
    (h : (normalize a).1 = (normalize b).1) :
    calculate_similarity m a b = ⟨1, 1, 1, 1, (normalize a).1, (normalize b).1⟩ := by
  rw [calculate_similarity]
  show (if (normalize a).1 = (normalize b).1 then _ else _) = _
  rw [if_pos h]

theorem calculate_similarity_of_norm_ne (m : NameMatcher) (a b : Text)
    (h : ¬ (normalize a).1 = (normalize b).1) :
    calculate_similarity m a b =
      ⟨m.ngram_weight * ngram_similarity (normalize a).1 (normalize b).1 2 +
          m.prefix_weight * prefix_match_score (normalize a).1 (normalize b).1 +
          m.edit_weight * edit_distance_score (normalize a).1 (normalize b).1,
        ngram_similarity (normalize a).1 (normalize b).1 2,
        prefix_match_score (normalize a).1 (normalize b).1,
        edit_distance_score (normalize a).1 (normalize b).1,
        (normalize a).1, (normalize b).1⟩ := by
  rw [calculate_similarity]
  show (if (normalize a).1 = (normalize b).1 then _ else _) = _
  rw [if_neg h]

/-! ## C9 — empty and missing inputs -/

/-- C9: a missing (`None`/`NaN`) or empty input normalizes to the empty
string, and every sub-scorer returns its documented value on an empty
input instead of failing.  (The "no exception" part of the claim is
witnessed by the embedding itself: all the functions of this file are
total Lean functions on arbitrary text.) -/
theorem normalize_empty_and_total :
    normalizeOpt none = ([], none) ∧ normalize [] = ([], []) ∧
    (∀ t : Text, normalizeOpt (some t) = ((normalize t).1, some t)) ∧
    ∀ t : Text, ngram_similarity [] t 2 = 0 ∧ ngram_similarity t [] 2 = 0 ∧
      prefix_match_score [] t = 0 ∧ prefix_match_score t [] = 0 ∧
      edit_distance_score [] t = 0 ∧ edit_distance_score t [] = 0 := by
  refine ⟨rfl, rfl, fun t => rfl, fun t => ⟨?_, ?_, ?_, ?_, ?_, ?_⟩⟩ <;>
    simp [ngram_similarity, prefix_match_score, edit_distance_score]

/-! ## C2 — edit-distance score -/

/-- C2 (counterexample): the claim expects `edit_distance_score("","") =
1.0`, but the guard `if not text1 or not text2: return 0.0` catches the
both-empty case first, so the code returns 0.0 (the `max_len == 0`
branch is unreachable). -/
theorem edit_distance_score_both_empty_ne_one :
    ¬ edit_distance_score ([] : Text) ([] : Text) = 1 := by decide

/-- C2 (amended): `edit_distance_score` returns 0.0 whenever either
string is empty — including when both are — and `1 − distance/max(len)`
for two non-empty strings; `edit_distance_score("kitten", "sitting") =
1 − 3/7`. -/
theorem edit_distance_score_characterization :
    edit_distance_score "kitten".data "sitting".data = 1 - 3/7 ∧
    (∀ t1 t2 : Text, t1 = [] ∨ t2 = [] → edit_distance_score t1 t2 = 0) ∧
    ∀ t1 t2 : Text, t1 ≠ [] → t2 ≠ [] →
      edit_distance_score t1 t2 =
        1 - (levDist t1 t2 : ℚ) / (max t1.length t2.length : ℚ) := by
  refine ⟨?_, ?_, ?_⟩
  · have h : levDist "kitten".data "sitting".data = 3 := by decide
    have h2 : max "kitten".data.length "sitting".data.length = 7 := by decide
    rw [edit_distance_score, if_neg (by decide)]
    simp only [h, h2]
    norm_num
  · intro t1 t2 h
    rw [edit_distance_score, if_pos h]
  · intro t1 t2 h1 h2
    rw [edit_distance_score, if_neg (by tauto)]
    have hm : ¬ (max t1.length t2.length = 0) := by
      simp [Nat.max_eq_zero_iff, List.length_eq_zero, h1, h2]
    show (if max t1.length t2.length = 0 then 1
      else 1 - (levDist t1 t2 : ℚ) / ((max t1.length t2.length : Nat) : ℚ)) = _
    rw [if_neg hm, Nat.cast_max]

/-- C2 (witness): the non-empty case of the characterization at a
concrete input. -/
theorem edit_distance_score_characterization_witness :
    edit_distance_score "a".data "ab".data =
      1 - (levDist "a".data "ab".data : ℚ) / (max "a".data.length "ab".data.length : ℚ) :=
  edit_distance_score_characterization.2.2 "a".data "ab".data (by decide) (by decide)

/-! ## C7 — prefix match score -/

/-- C7: `prefix_match_score` divides the length of the longest common
leading run (position-by-position, stopping at the first mismatch) by the
shorter length, returns 0.0 when either string is empty, and gives 2/5 on
`"abcde"`/`"abxyz"`. -/
theorem prefix_match_score_characterization :
    prefix_match_score "abcde".data "abxyz".data = 2/5 ∧
    (∀ t : Text, prefix_match_score [] t = 0 ∧ prefix_match_score t [] = 0) ∧
    ∀ t1 t2 : Text, t1 ≠ [] → t2 ≠ [] →
      prefix_match_score t1 t2 =
        (((t1.zip t2).takeWhile (fun p => p.1 == p.2)).length : ℚ) /
          (min t1.length t2.length : ℚ) := by
  refine ⟨?_, ?_, ?_⟩
  · have h : matchCount "abcde".data "abxyz".data = 2 := by decide
    have h2 : min "abcde".data.length "abxyz".data.length = 5 := by decide
    rw [prefix_match_score, if_neg (by decide)]
    simp only [h, h2]
    norm_num
  · intro t
    constructor <;> simp [prefix_match_score]
  · intro t1 t2 h1 h2
    rw [prefix_match_score, if_neg (by tauto)]
    have hm : ¬ (min t1.length t2.length = 0) := by
      simp [Nat.min_eq_zero_iff, List.length_eq_zero, h1, h2]
    show (if min t1.length t2.length = 0 then 0
      else (matchCount t1 t2 : ℚ) / ((min t1.length t2.length : Nat) : ℚ)) = _
    rw [if_neg hm, matchCount_eq_zip_takeWhile, Nat.cast_min]

/-- C7 (witness): the characterization applied at a concrete input. -/
theorem prefix_match_score_characterization_witness :
    prefix_match_score "ax".data "ay".data =
      ((("ax".data.zip "ay".data).takeWhile (fun p => p.1 == p.2)).length : ℚ) /
        (min "ax".data.length "ay".data.length : ℚ) :=
  prefix_match_score_characterization.2.2 "ax".data "ay".data (by decide) (by decide)

/-! ## C6 — n-gram Jaccard similarity -/

/-- C6: `ngram_similarity` takes the Jaccard ratio |∩|/|∪| of the n-gram
sets (singleton of the whole string when shorter than `n`), returns 0.0
when either input is empty, and gives 1/3 on `"abc"`/`"abd"` with n=2. -/
theorem ngram_similarity_characterization :
    ngram_similarity "abc".data "abd".data 2 = 1/3 ∧
    (∀ (t : Text) (n : Nat), ngram_similarity [] t n = 0 ∧ ngram_similarity t [] n = 0) ∧
    (∀ (t : Text) (n : Nat), t.length < n → create_ngrams t n = {t}) ∧
    (∀ (t : Text) (n : Nat), ¬ t.length < n → create_ngrams t n =
      ((List.range (t.length - n + 1)).map (fun i => (t.drop i).take n)).toFinset) ∧
    ∀ (t1 t2 : Text) (n : Nat), t1 ≠ [] → t2 ≠ [] →
      ngram_similarity t1 t2 n =
        ((create_ngrams t1 n ∩ create_ngrams t2 n).card : ℚ) /
          ((create_ngrams t1 n ∪ create_ngrams t2 n).card : ℚ) := by
  refine ⟨?_, ?_, ?_, ?_, ?_⟩
  · have h1 : (create_ngrams "abc".data 2 ∩ create_ngrams "abd".data 2).card = 1 := by decide
    have h2 : (create_ngrams "abc".data 2 ∪ create_ngrams "abd".data 2).card = 3 := by decide
    rw [ngram_similarity, if_neg (by decide)]
    simp only [h1, h2]
    norm_num
  · intro t n
    constructor <;> simp [ngram_similarity]
  · intro t n h
    rw [create_ngrams, if_pos h]
  · intro t n h
    rw [create_ngrams, if_neg h]
  · intro t1 t2 n h1 h2
    rw [ngram_similarity, if_neg (by tauto)]
    by_cases hu : (create_ngrams t1 n ∪ create_ngrams t2 n).card = 0
    · have hi : (create_ngrams t1 n ∩ create_ngrams t2 n).card = 0 :=
        Nat.le_zero.mp (hu ▸ Finset.card_le_card
          (Finset.inter_subset_union (s := create_ngrams t1 n) (t := create_ngrams t2 n)))
      show (if (create_ngrams t1 n ∪ create_ngrams t2 n).card = 0 then (0 : ℚ)
        else _) = _
      rw [if_pos hu, hu, hi]
      norm_num
    · show (if (create_ngrams t1 n ∪ create_ngrams t2 n).card = 0 then (0 : ℚ)
        else ((create_ngrams t1 n ∩ create_ngrams t2 n).card : ℚ) /
          ((create_ngrams t1 n ∪ create_ngrams t2 n).card : ℚ)) = _
      rw [if_neg hu]

/-- C6 (witness): the Jaccard formula applied at a concrete input. -/
theorem ngram_similarity_characterization_witness :
    ngram_similarity "ab".data "cd".data 2 =
      ((create_ngrams "ab".data 2 ∩ create_ngrams "cd".data 2).card : ℚ) /
        ((create_ngrams "ab".data 2 ∪ create_ngrams "cd".data 2).card : ℚ) :=
  ngram_similarity_characterization.2.2.2.2 "ab".data "cd".data 2 (by decide) (by decide)

/-! ## C3 — exact-match short-circuit -/

/-- C3: when the two normal forms agree (including both empty),
`calculate_similarity` returns 1.0 for the composite and all three
component scores; in particular `similarity(s, s)` is all ones. -/
theorem calculate_similarity_exact_match :
    (∀ (m : NameMatcher) (a b : Text), (normalize a).1 = (normalize b).1 →
      calculate_similarity m a b = ⟨1, 1, 1, 1, (normalize a).1, (normalize b).1⟩) ∧
    ∀ (m : NameMatcher) (s : Text),
      (calculate_similarity m s s).score = 1 ∧
      (calculate_similarity m s s).ngram_score = 1 ∧
      (calculate_similarity m s s).prefix_score = 1 ∧
      (calculate_similarity m s s).edit_score = 1 := by
  refine ⟨fun m a b h => calculate_similarity_of_norm_eq m a b h, fun m s => ?_⟩
  rw [calculate_similarity_of_norm_eq m s s rfl]
  exact ⟨rfl, rfl, rfl, rfl⟩

/-- C3 (witness): the spec's own concrete pair — `株式会社テスト` and
`テスト(株)` normalize identically (to `てすと`), so the short-circuit
returns all four scores as 1.0. -/
theorem calculate_similarity_exact_match_witness :
    calculate_similarity defaultMatcher "株式会社テスト".data "テスト(株)".data =
      ⟨1, 1, 1, 1, (normalize "株式会社テスト".data).1, (normalize "テスト(株)".data).1⟩ :=
  calculate_similarity_exact_match.1 defaultMatcher _ _ (by decide)



/-! ## Sorting lemmas for `find_candidates` (C4, C5) -/

theorem mem_insertDesc {x a : CandidateResult} {l : List CandidateResult} :
    a ∈ insertDesc x l ↔ a = x ∨ a ∈ l := by
  induction l with
  | nil => simp [insertDesc]
  | cons y ys ih =>
    rw [insertDesc]
    by_cases h : x.score < y.score
    · rw [if_pos h]
      simp only [List.mem_cons, ih]
      tauto
    · rw [if_neg h]
      simp only [List.mem_cons]

theorem mem_sortDesc {a : CandidateResult} {l : List CandidateResult} :
    a ∈ sortDesc l ↔ a ∈ l := by
  induction l with
  | nil => simp [sortDesc]
  | cons y ys ih =>
    rw [sortDesc]
    simp only [mem_insertDesc, ih, List.mem_cons]

theorem pairwise_insertDesc {x : CandidateResult} {l : List CandidateResult}
    (h : l.Pairwise (fun a b => b.score ≤ a.score)) :
    (insertDesc x l).Pairwise (fun a b => b.score ≤ a.score) := by
  induction l with
  | nil => simp [insertDesc]
  | cons y ys ih =>
    rw [insertDesc]
    rcases List.pairwise_cons.mp h with ⟨hy, hys⟩
    by_cases hx : x.score < y.score
    · rw [if_pos hx]
      refine List.pairwise_cons.mpr ⟨?_, ih hys⟩
      intro b hb
      rcases mem_insertDesc.mp hb with rfl | hb
      · exact le_of_lt hx
      · exact hy b hb
    · rw [if_neg hx]
      refine List.pairwise_cons.mpr ⟨?_, h⟩
      intro b hb
      rcases List.mem_cons.mp hb with rfl | hb
      · exact le_of_not_lt hx
      · exact le_trans (hy b hb) (le_of_not_lt hx)

theorem pairwise_sortDesc (l : List CandidateResult) :
    (sortDesc l).Pairwise (fun a b => b.score ≤ a.score) := by
  induction l with
  | nil => simp [sortDesc]
  | cons y ys ih =>
    rw [sortDesc]
    exact pairwise_insertDesc ih

theorem filter_insertDesc (x : CandidateResult) (l : List CandidateResult) (q : ℚ) :
    (insertDesc x l).filter (fun r => decide (r.score = q)) =
      if x.score = q then x :: l.filter (fun r => decide (r.score = q))
      else l.filter (fun r => decide (r.score = q)) := by
  induction l with
  | nil =>
    by_cases h : x.score = q <;> simp [insertDesc, h]
  | cons y ys ih =>
    rw [insertDesc]
    by_cases hx : x.score < y.score
    · rw [if_pos hx]
      by_cases hq : x.score = q
      · have hy : ¬ y.score = q := by
          intro hyq
          rw [hq] at hx
          rw [hyq] at hx
          exact lt_irrefl _ hx
        rw [if_pos hq]
        rw [List.filter_cons, List.filter_cons, ih, if_pos hq]
        simp [hy]
      · rw [if_neg hq]
        rw [List.filter_cons, List.filter_cons]
        rw [ih, if_neg hq]
    · rw [if_neg hx]
      by_cases hq : x.score = q
      · rw [if_pos hq, List.filter_cons]
        simp [hq]
      · rw [if_neg hq, List.filter_cons]
        simp [hq]

theorem filter_sortDesc (l : List CandidateResult) (q : ℚ) :
    (sortDesc l).filter (fun r => decide (r.score = q)) =
      l.filter (fun r => decide (r.score = q)) := by
  induction l with
  | nil => simp [sortDesc]
  | cons y ys ih =>
    rw [sortDesc, filter_insertDesc, List.filter_cons]
    by_cases h : y.score = q
    · rw [if_pos h, ih]
      simp [h]
    · rw [if_neg h, ih]
      simp [h]

theorem scored_results_cons (m : NameMatcher) (target : Text) (th : ℚ)
    (c : Text) (cs : List Text) :
    scored_results m target (c :: cs) th =
      if th ≤ (calculate_similarity m target c).score
      then (⟨c, (calculate_similarity m target c).score, calculate_similarity m target c⟩ :
        CandidateResult) :: scored_results m target cs th
      else scored_results m target cs th := by
  by_cases h : th ≤ (calculate_similarity m target c).score
  · rw [if_pos h, scored_results, scored_results]
    refine List.filterMap_cons_some ?_
    show (if th ≤ (calculate_similarity m target c).score
      then some (⟨c, (calculate_similarity m target c).score,
        calculate_similarity m target c⟩ : CandidateResult) else none) = _
    rw [if_pos h]
  · rw [if_neg h, scored_results, scored_results]
    refine List.filterMap_cons_none ?_
    show (if th ≤ (calculate_similarity m target c).score
      then some (⟨c, (calculate_similarity m target c).score,
        calculate_similarity m target c⟩ : CandidateResult) else none) = _
    rw [if_neg h]

theorem scored_results_candidates_sublist (m : NameMatcher) (target : Text)
    (th : ℚ) (cands : List Text) :
    List.Sublist ((scored_results m target cands th).map (fun r => r.candidate)) cands := by
  induction cands with
  | nil => simp [scored_results]
  | cons c cs ih =>
    rw [scored_results_cons]
    by_cases h : th ≤ (calculate_similarity m target c).score
    · rw [if_pos h, List.map_cons]
      exact List.Sublist.cons₂ c ih
    · rw [if_neg h]
      exact List.Sublist.cons c ih

/-! ## C4 — result count and threshold -/

/-- C4: `find_candidates` returns at most `top_n` results, and every
returned result's composite score is at least `threshold`. -/
theorem find_candidates_length_and_threshold (m : NameMatcher) (target : Text)
    (cands : List Text) (n : Nat) (th : ℚ) :
    (find_candidates m target cands n th).length ≤ n ∧
    ∀ r ∈ find_candidates m target cands n th, th ≤ r.score := by
  constructor
  · exact List.length_take_le n _
  · intro r hr
    have hr2 : r ∈ scored_results m target cands th :=
      mem_sortDesc.mp (List.mem_of_mem_take hr)
    rcases List.mem_filterMap.mp hr2 with ⟨c, _, hsome⟩
    have hsome2 : (if th ≤ (calculate_similarity m target c).score
        then some (⟨c, (calculate_similarity m target c).score,
          calculate_similarity m target c⟩ : CandidateResult) else none) = some r := hsome
    by_cases h : th ≤ (calculate_similarity m target c).score
    · rw [if_pos h] at hsome2
      cases Option.some_inj.mp hsome2
      exact h
    · rw [if_neg h] at hsome2
      exact absurd hsome2 (by simp)

/-- C4 (witness): the bound and the threshold applied on a concrete call
whose single candidate matches exactly. -/
theorem find_candidates_length_and_threshold_witness :
    (find_candidates defaultMatcher "ab".data ["ab".data] 3 0).length ≤ 3 ∧
    (0 : ℚ) ≤ (⟨"ab".data, 1, ⟨1, 1, 1, 1, "ab".data, "ab".data⟩⟩ : CandidateResult).score :=
  ⟨(find_candidates_length_and_threshold defaultMatcher "ab".data ["ab".data] 3 0).1,
    (find_candidates_length_and_threshold defaultMatcher "ab".data ["ab".data] 3 0).2
      _ (by decide)⟩

/-! ## C5 — descending order and stability -/

/-- C5: the output of `find_candidates` is sorted by descending composite
score; results with equal scores keep the order of the threshold-filtered
candidate list (for each score value, the output's run of that score is a
prefix of the filtered list's run), and that list in turn lists
candidates in input order (its candidates form a sublist of the input
candidate list). -/
theorem find_candidates_sorted_and_stable (m : NameMatcher) (target : Text)
    (cands : List Text) (n : Nat) (th : ℚ) :
    (find_candidates m target cands n th).Pairwise (fun a b => b.score ≤ a.score) ∧
    (∀ q : ℚ, (find_candidates m target cands n th).filter (fun r => decide (r.score = q)) <+:
      (scored_results m target cands th).filter (fun r => decide (r.score = q))) ∧
    List.Sublist ((scored_results m target cands th).map (fun r => r.candidate)) cands := by
  refine ⟨?_, ?_, scored_results_candidates_sublist m target th cands⟩
  · exact (pairwise_sortDesc _).sublist (List.take_sublist _ _)
  · intro q
    have h1 : (find_candidates m target cands n th).filter (fun r => decide (r.score = q)) <+:
        (sortDesc (scored_results m target cands th)).filter (fun r => decide (r.score = q)) :=
      (List.take_prefix _ _).filter _
    rwa [filter_sortDesc] at h1



/-! ## Bounds of the sub-scorers (for C8) -/

theorem matchCount_le_min (t1 t2 : Text) : matchCount t1 t2 ≤ min t1.length t2.length := by
  induction t1 generalizing t2 with
  | nil => cases t2 <;> simp [matchCount]
  | cons c1 t1 ih =>
    cases t2 with
    | nil => simp [matchCount]
    | cons c2 t2 =>
      rw [matchCount]
      by_cases h : c1 = c2
      · rw [if_pos h]
        simp only [List.length_cons, Nat.succ_min_succ]
        exact Nat.succ_le_succ (ih t2)
      · rw [if_neg h]
        exact Nat.zero_le _

theorem levDist_nil_left (t : Text) : levDist [] t = t.length := by
  induction t with
  | nil => rfl
  | cons c t ih =>
    unfold levDist at ih ⊢
    rw [levenshtein_nil_cons, ih]
    simp [Levenshtein.defaultCost]
    omega

theorem levDist_nil_right (t : Text) : levDist t [] = t.length := by
  induction t with
  | nil => rfl
  | cons c t ih =>
    unfold levDist at ih ⊢
    rw [levenshtein_cons_nil, ih]
    simp [Levenshtein.defaultCost]
    omega

theorem levDist_le_max (t1 t2 : Text) : levDist t1 t2 ≤ max t1.length t2.length := by
  induction t1 generalizing t2 with
  | nil =>
    rw [levDist_nil_left]
    exact Nat.le_max_right _ _
  | cons c1 t1 ih =>
    cases t2 with
    | nil =>
      rw [levDist_nil_right]
      exact Nat.le_max_left _ _
    | cons c2 t2 =>
      have h3 : levDist (c1 :: t1) (c2 :: t2) ≤
          (Levenshtein.defaultCost (α := Char)).substitute c1 c2 + levDist t1 t2 := by
        unfold levDist
        rw [levenshtein_cons_cons]
        exact (min_le_right _ _).trans (min_le_right _ _)
      have hsub : (Levenshtein.defaultCost (α := Char)).substitute c1 c2 ≤ 1 := by
        simp only [Levenshtein.defaultCost_substitute]
        split <;> omega
      have hih := ih t2
      simp only [List.length_cons]
      omega

theorem ngram_bounds (t1 t2 : Text) (n : Nat) :
    0 ≤ ngram_similarity t1 t2 n ∧ ngram_similarity t1 t2 n ≤ 1 := by
  by_cases h : t1 = [] ∨ t2 = []
  · rw [ngram_similarity, if_pos h]
    norm_num
  · rw [ngram_similarity_eq t1 t2 n h]
    by_cases hu : (create_ngrams t1 n ∪ create_ngrams t2 n).card = 0
    · rw [if_pos hu]
      norm_num
    · rw [if_neg hu]
      have hpos : (0 : ℚ) < ((create_ngrams t1 n ∪ create_ngrams t2 n).card : ℚ) := by
        exact_mod_cast Nat.pos_of_ne_zero hu
      have hle : ((create_ngrams t1 n ∩ create_ngrams t2 n).card : ℚ) ≤
          ((create_ngrams t1 n ∪ create_ngrams t2 n).card : ℚ) := by
        exact_mod_cast Finset.card_le_card Finset.inter_subset_union
      exact ⟨div_nonneg (Nat.cast_nonneg _) hpos.le, (div_le_one hpos).mpr hle⟩

theorem prefix_bounds (t1 t2 : Text) :
    0 ≤ prefix_match_score t1 t2 ∧ prefix_match_score t1 t2 ≤ 1 := by
  by_cases h : t1 = [] ∨ t2 = []
  · rw [prefix_match_score, if_pos h]
    norm_num
  · rw [prefix_match_score_eq t1 t2 h]
    by_cases hm : min t1.length t2.length = 0
    · rw [if_pos hm]
      norm_num
    · rw [if_neg hm]
      have hpos : (0 : ℚ) < ((min t1.length t2.length : Nat) : ℚ) := by
        exact_mod_cast Nat.pos_of_ne_zero hm
      have hle : (matchCount t1 t2 : ℚ) ≤ ((min t1.length t2.length : Nat) : ℚ) := by
        exact_mod_cast matchCount_le_min t1 t2
      exact ⟨div_nonneg (Nat.cast_nonneg _) hpos.le, (div_le_one hpos).mpr hle⟩

theorem edit_bounds (t1 t2 : Text) :
    0 ≤ edit_distance_score t1 t2 ∧ edit_distance_score t1 t2 ≤ 1 := by
  by_cases h : t1 = [] ∨ t2 = []
  · rw [edit_distance_score, if_pos h]
    norm_num
  · rw [edit_distance_score_eq t1 t2 h]
    by_cases hm : max t1.length t2.length = 0
    · rw [if_pos hm]
      norm_num
    · rw [if_neg hm]
      have hpos : (0 : ℚ) < ((max t1.length t2.length : Nat) : ℚ) := by
        exact_mod_cast Nat.pos_of_ne_zero hm
      have hle : (levDist t1 t2 : ℚ) ≤ ((max t1.length t2.length : Nat) : ℚ) := by
        exact_mod_cast levDist_le_max t1 t2
      have hq1 : (levDist t1 t2 : ℚ) / ((max t1.length t2.length : Nat) : ℚ) ≤ 1 :=
        (div_le_one hpos).mpr hle
      have hq0 : 0 ≤ (levDist t1 t2 : ℚ) / ((max t1.length t2.length : Nat) : ℚ) :=
        div_nonneg (Nat.cast_nonneg _) hpos.le
      constructor <;> linarith

/-! ## C8 — composite score stays in [0, 1] -/

/-- C8: with non-negative weights summing to 1, the composite score of
`calculate_similarity` lies in [0, 1] for every pair of inputs. -/
theorem composite_score_unit_interval (m : NameMatcher) (t1 t2 : Text)
    (h1 : 0 ≤ m.ngram_weight) (h2 : 0 ≤ m.prefix_weight) (h3 : 0 ≤ m.edit_weight)
    (hsum : m.ngram_weight + m.prefix_weight + m.edit_weight = 1) :
    0 ≤ (calculate_similarity m t1 t2).score ∧ (calculate_similarity m t1 t2).score ≤ 1 := by
  by_cases h : (normalize t1).1 = (normalize t2).1
  · rw [calculate_similarity_of_norm_eq m t1 t2 h]
    norm_num
  · rw [calculate_similarity_of_norm_ne m t1 t2 h]
    obtain ⟨a0, a1⟩ := ngram_bounds (normalize t1).1 (normalize t2).1 2
    obtain ⟨b0, b1⟩ := prefix_bounds (normalize t1).1 (normalize t2).1
    obtain ⟨c0, c1⟩ := edit_bounds (normalize t1).1 (normalize t2).1
    constructor
    · show (0 : ℚ) ≤ m.ngram_weight * ngram_similarity (normalize t1).1 (normalize t2).1 2 +
        m.prefix_weight * prefix_match_score (normalize t1).1 (normalize t2).1 +
        m.edit_weight * edit_distance_score (normalize t1).1 (normalize t2).1
      have := mul_nonneg h1 a0
      have := mul_nonneg h2 b0
      have := mul_nonneg h3 c0
      linarith
    · show m.ngram_weight * ngram_similarity (normalize t1).1 (normalize t2).1 2 +
        m.prefix_weight * prefix_match_score (normalize t1).1 (normalize t2).1 +
        m.edit_weight * edit_distance_score (normalize t1).1 (normalize t2).1 ≤ 1
      have := mul_le_of_le_one_right h1 a1
      have := mul_le_of_le_one_right h2 b1
      have := mul_le_of_le_one_right h3 c1
      linarith

/-- C8 (witness): the default weights are non-negative and sum to 1, so a
concrete composite score lies in [0, 1]. -/
theorem composite_score_unit_interval_witness :
    0 ≤ (calculate_similarity defaultMatcher "ab".data "cd".data).score ∧
      (calculate_similarity defaultMatcher "ab".data "cd".data).score ≤ 1 :=
  composite_score_unit_interval defaultMatcher "ab".data "cd".data
    (by norm_num [defaultMatcher]) (by norm_num [defaultMatcher])
    (by norm_num [defaultMatcher]) (by norm_num [defaultMatcher])

/-! ## Symmetry of the sub-scorers (for C10) -/

theorem matchCount_comm (t1 t2 : Text) : matchCount t1 t2 = matchCount t2 t1 := by
  induction t1 generalizing t2 with
  | nil => cases t2 <;> rfl
  | cons c1 t1 ih =>
    cases t2 with
    | nil => rfl
    | cons c2 t2 =>
      rw [matchCount, matchCount]
      by_cases h : c1 = c2
      · rw [if_pos h, if_pos h.symm, ih]
      · rw [if_neg h, if_neg (fun hh => h hh.symm)]

theorem ngram_similarity_comm (t1 t2 : Text) (n : Nat) :
    ngram_similarity t1 t2 n = ngram_similarity t2 t1 n := by
  by_cases h : t1 = [] ∨ t2 = []
  · rw [ngram_similarity, if_pos h, ngram_similarity, if_pos (or_comm.mp h)]
  · rw [ngram_similarity_eq t1 t2 n h,
      ngram_similarity_eq t2 t1 n (fun hh => h (or_comm.mp hh))]
    rw [Finset.inter_comm, Finset.union_comm]

theorem prefix_match_score_comm (t1 t2 : Text) :
    prefix_match_score t1 t2 = prefix_match_score t2 t1 := by
  by_cases h : t1 = [] ∨ t2 = []
  · rw [prefix_match_score, if_pos h, prefix_match_score, if_pos (or_comm.mp h)]
  · rw [prefix_match_score_eq t1 t2 h,
      prefix_match_score_eq t2 t1 (fun hh => h (or_comm.mp hh))]
    rw [matchCount_comm, Nat.min_comm]

theorem levDist_comm (t1 t2 : Text) : levDist t1 t2 = levDist t2 t1 := by
  induction t1 generalizing t2 with
  | nil => rw [levDist_nil_left, levDist_nil_right]
  | cons c1 t1 ih =>
    induction t2 with
    | nil => rw [levDist_nil_left, levDist_nil_right]
    | cons c2 t2 ih2 =>
      unfold levDist at ih ih2 ⊢
      rw [levenshtein_cons_cons, levenshtein_cons_cons]
      rw [ih (c2 :: t2), ih t2, ih2]
      have hsub : (Levenshtein.defaultCost (α := Char)).substitute c1 c2 =
          (Levenshtein.defaultCost (α := Char)).substitute c2 c1 := by
        simp [Levenshtein.defaultCost, eq_comm]
      rw [hsub]
      simp only [Levenshtein.defaultCost_delete, Levenshtein.defaultCost_insert]
      rw [min_left_comm]

theorem edit_distance_score_comm (t1 t2 : Text) :
    edit_distance_score t1 t2 = edit_distance_score t2 t1 := by
  by_cases h : t1 = [] ∨ t2 = []
  · rw [edit_distance_score, if_pos h, edit_distance_score, if_pos (or_comm.mp h)]
  · rw [edit_distance_score_eq t1 t2 h,
      edit_distance_score_eq t2 t1 (fun hh => h (or_comm.mp hh))]
    rw [levDist_comm, Nat.max_comm]

/-! ## C10 — symmetry of `calculate_similarity` -/

/-- C10: swapping the two arguments of `calculate_similarity` leaves the
composite score and all three component scores unchanged. -/
theorem calculate_similarity_symm (m : NameMatcher) (a b : Text) :
    (calculate_similarity m a b).score = (calculate_similarity m b a).score ∧
    (calculate_similarity m a b).ngram_score = (calculate_similarity m b a).ngram_score ∧
    (calculate_similarity m a b).prefix_score = (calculate_similarity m b a).prefix_score ∧
    (calculate_similarity m a b).edit_score = (calculate_similarity m b a).edit_score := by
  by_cases h : (normalize a).1 = (normalize b).1
  · rw [calculate_similarity_of_norm_eq m a b h,
      calculate_similarity_of_norm_eq m b a h.symm]
    exact ⟨rfl, rfl, rfl, rfl⟩
  · rw [calculate_similarity_of_norm_ne m a b h,
      calculate_similarity_of_norm_ne m b a (fun hh => h hh.symm)]
    rw [ngram_similarity_comm (normalize b).1 (normalize a).1 2,
      prefix_match_score_comm (normalize b).1 (normalize a).1,
      edit_distance_score_comm (normalize b).1 (normalize a).1]
    exact ⟨rfl, rfl, rfl, rfl⟩



/-! ## C1 — `normalize` is not idempotent -/

/-- C1 (counterexample): `normalize` is not idempotent.  On `"l-lc"` the
first pass finds no legal pattern (the hyphen splits `llc`), then the
symbol removal deletes the hyphen, producing `"llc"`; a second pass
removes that fresh `LLC` occurrence, giving `""` ≠ `"llc"`. -/
theorem normalize_not_idempotent :
    ¬ (normalize ((normalize "l-lc".data).1)).1 = (normalize "l-lc".data).1 := by
  decide

/-- C1 (amended): `normalize` is not idempotent: re-normalizing a
normalized form can change it again.  Concretely, `normalize` sends
`"l-lc"` to `"llc"` (the legal-pattern pass sees no match because of the
hyphen, which the later symbol removal deletes), and sends `"llc"` to
`""` (the `LLC` pattern now matches), so the second application differs
from the first.  The input is plain ASCII, on which the embedded
character tables agree exactly with the source's Unicode processing. -/
theorem normalize_second_pass_differs :
    (normalize "l-lc".data).1 = "llc".data ∧
    (normalize "llc".data).1 = [] ∧
    (normalize ((normalize "l-lc".data).1)).1 ≠ (normalize "l-lc".data).1 :=
  ⟨by decide, by decide, by decide⟩

end NM
